import Mathlib

/-!
Shallow embedding of `src/FiniteElemNL.cpp` (class `FiniteElemNL`), a
nonlinear finite-element solver: load-vector assembly through an
`accumArray` scatter-add, forward/backward nonlinear Gauss-Seidel sweeps
with an embedded 1-D Newton search, a global Newton alternative
(`NWTsolve`), and the outer driver loop of the running constructor.

Modelling conventions:
* `double` arithmetic is embedded as `ℚ` (exact field semantics of the
  arithmetic expressions written in the source; IEEE rounding and
  non-finite values are out of scope, and the one place the code can
  divide by a zero derivative is tracked explicitly by
  `NWTsolve1DhitsZeroDeriv`).  In ℚ we have `x / 0 = 0` where IEEE doubles
  produce `±inf`/`NaN`; no theorem below depends on the value produced by
  such a division without saying so.
* Armadillo column vectors are `List ℚ` indexed by `List.getD`; matrices
  are functions `Nat → Nat → ℚ`.
* Norm comparisons `‖r‖ > tol` (both sides nonnegative) are embedded as
  the equivalent comparisons of squares, `normSq r > tol²`, keeping the
  development inside ℚ.  Initially the source sets `err = 2*tol`, embedded
  as `errSq = 4*tolSq`; `(2 tol)² > tol² ↔ 2 tol > tol` for `tol ≥ 0`.
* The classes `FunSCNL1D`, `FunSCNL` and `FunBoltz` are declared in
  headers that are not part of this repository snapshot, so the solver is
  parametrized over their evaluators (`mkFun : ℚ → ℚ → ℚ → Fun1D` for the
  per-node scalar problem, `pdenl : ℚ → ℚ` for the elementwise nonlinear
  term, `bdfun : ℚ × ℚ → ℚ` for the boundary evaluator).  `FunZeros` is
  modelled from the spec.  The Armadillo direct linear solver `solve` used
  by `NWTsolve` is an external library routine and is likewise a
  parameter (`lsolve`).
* `uword` loop-counter arithmetic, in the one place where the wraparound
  of the unsigned 64-bit type matters (the backward sweep's loop header
  `for(uword i=Nu-2;i>=0;i--)`), is embedded as `Nat` arithmetic
  `% 2^64` (`uwordDec`, `GSsolvebGuard`, `GSsolvebInitIdx`).  The loop
  guard `i>=0` of an unsigned quantity never fails, so the loop has no
  normal exit; `GSsolveb` below embeds the body of the first `Nu-1`
  executions of the loop, the descending pass over indices
  `Nu-2, …, 1, 0`, which is the portion of the traversal every other
  property is about.  (At `i = 0` the body, when `0` is a free node,
  asks for the column span `span(0, uword(0)-1)`, an out-of-range span on
  which Armadillo throws; the embedded body gives that lower block its
  mathematically denoted value, the empty sum.)
-/

/-- `std::abs` on a scalar, written as its conditional definition. -/
def ratAbs (x : ℚ) : ℚ := if x < 0 then -x else x

/-- Scalar function object handed to the 1-D Newton solver.  The concrete
class `FunSCNL1D` (constructed from `pars = [ci, A(i,i), M(i)]`, source
lines 190–194) is declared outside this repository snapshot, so the
development is parametrized over it. -/
structure Fun1D where
  F : ℚ → ℚ
  DF : ℚ → ℚ

/-- Loop of `FiniteElemNL::NWTsolve1D` (source lines 229–235).  State is
`(remaining iterations, x, fp, df)` with `fp = f.F x`, `df = f.DF x`;
while `|fp| > tol` and the iteration budget is not exhausted, the step is
`x ← x − fp/df`, then `df` and `fp` are re-evaluated at the new `x`. -/
def NWTgo (f : Fun1D) (tol : ℚ) : Nat → ℚ → ℚ → ℚ → ℚ
  | 0, x, _, _ => x
  | n + 1, x, fp, df =>
    if tol < ratAbs fp then
      NWTgo f tol n (x - fp / df) (f.F (x - fp / df)) (f.DF (x - fp / df))
    else x

/-- `FiniteElemNL::NWTsolve1D` (source lines 222–237): Newton iteration
`x ← x − f(x)/f'(x)` from `x0`, stopping when `|f(x)| ≤ tol` or after
`maxitr` steps, returning the last iterate in either case. -/
def NWTsolve1D (f : Fun1D) (x0 tol : ℚ) (maxitr : Nat) : ℚ :=
  NWTgo f tol maxitr x0 (f.F x0) (f.DF x0)

/-- Instrumentation of the very same loop: `true` iff some executed Newton
step divides by a zero derivative (`df = 0`) — the case in which the C++
`double` division produces an infinite or NaN iterate.  The source loop
contains no guard and no error channel for this case. -/
def NWTgoDivZero (f : Fun1D) (tol : ℚ) : Nat → ℚ → ℚ → ℚ → Bool
  | 0, _, _, _ => false
  | n + 1, x, fp, df =>
    if tol < ratAbs fp then
      if df = 0 then true
      else NWTgoDivZero f tol n (x - fp / df) (f.F (x - fp / df)) (f.DF (x - fp / df))
    else false

/-- Whether a run of `NWTsolve1D` performs a division by a zero
derivative. -/
def NWTsolve1DhitsZeroDeriv (f : Fun1D) (x0 tol : ℚ) (maxitr : Nat) : Bool :=
  NWTgoDivZero f tol maxitr x0 (f.F x0) (f.DF x0)

/-- Elementwise sum of two Armadillo vectors. -/
def addVec (x y : List ℚ) : List ℚ := List.zipWith (fun a c => a + c) x y

/-- Elementwise difference of two Armadillo vectors. -/
def subVec (x y : List ℚ) : List ℚ := List.zipWith (fun a c => a - c) x y

/-- Armadillo `%`, the elementwise (Schur) product. -/
def hadamard (x y : List ℚ) : List ℚ := List.zipWith (fun a c => a * c) x y

/-- Matrix–vector product `A*u` for a square matrix of the size of `u`. -/
def matVec (A : Nat → Nat → ℚ) (u : List ℚ) : List ℚ :=
  (List.range u.length).map
    (fun i => ((List.range u.length).map (fun j => A i j * u.getD j 0)).sum)

/-- `v.rows(idx)`: the subvector of `v` at the indices in `idx`. -/
def selRows (v : List ℚ) (idx : List Nat) : List ℚ :=
  idx.map (fun j => v.getD j 0)

/-- `u.rows(idx) = vals`: write the entries of `vals` into `u` at the
positions listed in `idx`. -/
def setRows (u : List ℚ) (idx : List Nat) (vals : List ℚ) : List ℚ :=
  (idx.zip vals).foldl (fun acc p => acc.set p.1 p.2) u

/-- Squared Euclidean norm of a vector (see the header note on embedding
norm comparisons by their squares). -/
def normSq (v : List ℚ) : ℚ := (v.map (fun x => x * x)).sum

/-- The residual expression `(A*u)+(Mv%fu)-b` of source lines 65, 74, 157
and 169, with the elementwise nonlinear term `fu` passed in by the caller
exactly as in the source. -/
def residualVec (A : Nat → Nat → ℚ) (Mv b fu u : List ℚ) : List ℚ :=
  subVec (addVec (matVec A u) (hadamard Mv fu)) b

/-- `FiniteElemNL::accumArray` (source lines 125–148): `S(i)` is the sum
of the entries of `ar` at the positions where `subs` equals `i`, and `0`
when there is no such position. -/
def accumArray (subs : List Nat) (ar : List ℚ) (N : Nat) : List ℚ :=
  (List.range N).map (fun i =>
    let q1 := (List.range subs.length).filter (fun k => subs.getD k 0 == i)
    if q1.isEmpty then 0 else ((q1.map (fun k => ar.getD k 0)).sum))

/-- Modelled from the spec: the evaluator of the class `FunZeros` (its
source is not under `src/`); the spec's list of plugin variants calls it
the zero source, so `evalF` is constantly `0`.  Line 44 of the source
installs it as the `pde` plugin of the running constructor. -/
def FunZeros : ℚ × ℚ → ℚ := fun _ => 0

/-- `node.rows(idx)` for the N×2 coordinate table: the rows of `node` at
the indices of `idx`. -/
def rowsP (node : List (ℚ × ℚ)) (idx : List Nat) : List (ℚ × ℚ) :=
  idx.map (fun j => node.getD j (0, 0))

/-- Rowwise `(p + q)/2.0` of two coordinate-row lists (source lines
98–100). -/
def midRows (p q : List (ℚ × ℚ)) : List (ℚ × ℚ) :=
  List.zipWith (fun a c => ((a.1 + c.1) / 2, (a.2 + c.2) / 2)) p q

/-- `FiniteElemNL::calcRHS` (source lines 94–112) for an arbitrary source
plugin `f` (the running constructor passes `FunZeros`): edge midpoints,
per-vertex contribution columns `area%(f(midA)+f(midB))/6`, vertical
concatenation in vertex-column order, and a scatter-accumulate against
the column-major flattening `vectorise(elem)` of the connectivity
table. -/
def calcRHS (f : ℚ × ℚ → ℚ) (node : List (ℚ × ℚ))
    (elem : List (Nat × Nat × Nat)) (area : List ℚ) : List ℚ :=
  let c0 := elem.map (fun e => e.1)
  let c1 := elem.map (fun e => e.2.1)
  let c2 := elem.map (fun e => e.2.2)
  let mid1 := midRows (rowsP node c1) (rowsP node c2)
  let mid2 := midRows (rowsP node c2) (rowsP node c0)
  let mid3 := midRows (rowsP node c0) (rowsP node c1)
  let bt1 := List.zipWith (fun a s => a * s / 6) area (addVec (mid2.map f) (mid3.map f))
  let bt2 := List.zipWith (fun a s => a * s / 6) area (addVec (mid3.map f) (mid1.map f))
  let bt3 := List.zipWith (fun a s => a * s / 6) area (addVec (mid1.map f) (mid2.map f))
  accumArray (c0 ++ (c1 ++ c2)) (bt1 ++ (bt2 ++ bt3)) node.length

/-- Midpoint of the segment `p`–`q` ("the average of the two endpoint
coordinates"). -/
def midpointOf (p q : ℚ × ℚ) : ℚ × ℚ := ((p.1 + q.1) / 2, (p.2 + q.2) / 2)

/-- Spec-side description: the midpoint of the edge opposite vertex `v` of
element `e`, i.e. the edge joining the two vertices other than `v`. -/
def oppMid (node : List (ℚ × ℚ)) (e : Nat × Nat × Nat) (v : Nat) : ℚ × ℚ :=
  if v = 0 then midpointOf (node.getD e.2.1 (0, 0)) (node.getD e.2.2 (0, 0))
  else if v = 1 then midpointOf (node.getD e.2.2 (0, 0)) (node.getD e.1 (0, 0))
  else midpointOf (node.getD e.1 (0, 0)) (node.getD e.2.1 (0, 0))

/-- Spec-side description: vertex `v` of an element with area `a` receives
`area * (sum of plugin values at the two edge-midpoints adjacent to that
vertex) / 6`; the midpoints adjacent to `v` are those of the two edges
containing `v`, i.e. the midpoints opposite the other two vertices. -/
def vertexContrib (f : ℚ × ℚ → ℚ) (node : List (ℚ × ℚ))
    (e : Nat × Nat × Nat) (a : ℚ) (v : Nat) : ℚ :=
  if v = 0 then a * (f (oppMid node e 1) + f (oppMid node e 2)) / 6
  else if v = 1 then a * (f (oppMid node e 2) + f (oppMid node e 0)) / 6
  else a * (f (oppMid node e 0) + f (oppMid node e 1)) / 6

/-- The load-vector assembly as the spec words it: concatenate the three
per-vertex contribution arrays in vertex-column order and
scatter-accumulate them against the identically ordered flattened
connectivity table. -/
def calcRHSspec (f : ℚ × ℚ → ℚ) (node : List (ℚ × ℚ))
    (elem : List (Nat × Nat × Nat)) (area : List ℚ) : List ℚ :=
  let ez := elem.zip area
  accumArray
    ((elem.map (fun e => e.1)) ++ ((elem.map (fun e => e.2.1)) ++ (elem.map (fun e => e.2.2))))
    ((ez.map (fun p => vertexContrib f node p.1 p.2 0)) ++
      ((ez.map (fun p => vertexContrib f node p.1 p.2 1)) ++
        (ez.map (fun p => vertexContrib f node p.1 p.2 2))))
    node.length

/-- Off-diagonal accumulation of the forward sweep (source lines 186–187):
`Ar.cols(span(0,i-1))*u.rows(span(0,i-1)) +
 Ar.cols(span(i+1,Nu-1))*u.rows(span(i+1,Nu-1))`. -/
def offdiagF (A : Nat → Nat → ℚ) (u : List ℚ) (i Nu : Nat) : ℚ :=
  ((List.range i).map (fun j => A i j * u.getD j 0)).sum +
    ((List.range' (i + 1) (Nu - (i + 1))).map (fun j => A i j * u.getD j 0)).sum

/-- Off-diagonal accumulation of the backward sweep (source lines 208–209):
`Ar.cols(span(0,i-1))*u.rows(span(0,i-1)) +
 Ar.cols(span(i,Nu-1))*u.rows(span(i,Nu-1))` — note the second span
starts at column `i`, not `i+1`. -/
def offdiagB (A : Nat → Nat → ℚ) (u : List ℚ) (i Nu : Nat) : ℚ :=
  ((List.range i).map (fun j => A i j * u.getD j 0)).sum +
    ((List.range' i (Nu - i)).map (fun j => A i j * u.getD j 0)).sum

/-- The off-diagonal contribution as the spec words it:
`Σ_{j≠i} A(i,j) * u(j)` over the current values of `u`. -/
def offdiagSpec (A : Nat → Nat → ℚ) (u : List ℚ) (i Nu : Nat) : ℚ :=
  (((List.range Nu).filter (fun j => j != i)).map (fun j => A i j * u.getD j 0)).sum

/-- Body of one visit of the forward sweep (source lines 183–196): skip
unless `i` is a free node (`find(freeNode==i)` nonempty); otherwise build
`ci = currA + b(i)`, the scalar problem `FunSCNL1D([ci, A(i,i), M(i)])`,
and write back `u(i) = NWTsolve1D(nfun, u(i), 1e-6, 10)`. -/
def GSvisitF (mkFun : ℚ → ℚ → ℚ → Fun1D) (b M : List ℚ) (A : Nat → Nat → ℚ)
    (freeNode : List Nat) (u : List ℚ) (i : Nat) : List ℚ :=
  if i ∈ freeNode then
    let ci := offdiagF A u i u.length + b.getD i 0
    u.set i (NWTsolve1D (mkFun ci (A i i) (M.getD i 0)) (u.getD i 0) (1 / 1000000) 10)
  else u

/-- Body of one visit of the backward sweep (source lines 205–217);
identical to `GSvisitF` except for the diagonal-including column split of
`offdiagB`. -/
def GSvisitB (mkFun : ℚ → ℚ → ℚ → Fun1D) (b M : List ℚ) (A : Nat → Nat → ℚ)
    (freeNode : List Nat) (u : List ℚ) (i : Nat) : List ℚ :=
  if i ∈ freeNode then
    let ci := offdiagB A u i u.length + b.getD i 0
    u.set i (NWTsolve1D (mkFun ci (A i i) (M.getD i 0)) (u.getD i 0) (1 / 1000000) 10)
  else u

/-- Indices visited by the forward sweep's loop
`for(uword i=1;i<Nu-1;i++)`: `1, 2, …, Nu-2`. -/
def visitedF (Nu : Nat) : List Nat := List.range' 1 (Nu - 2)

/-- Indices visited by the descending pass of the backward sweep's loop
`for(uword i=Nu-2;i>=0;i--)` before its counter wraps around:
`Nu-2, …, 1, 0` (see the header note and the `GSsolvebGuard` theorems on
the missing exit of this loop). -/
def visitedB (Nu : Nat) : List Nat := (List.range (Nu - 1)).reverse

/-- `FiniteElemNL::GSsolve` (source lines 179–199), the forward relaxation
sweep.  The parameters `maxitr` and `tol` are those of the C++ signature;
the body calls `NWTsolve1D` with the literals `1e-6` and `10`. -/
def GSsolve (mkFun : ℚ → ℚ → ℚ → Fun1D) (b u : List ℚ) (maxitr : Nat)
    (M : List ℚ) (A : Nat → Nat → ℚ) (tol : ℚ) (freeNode : List Nat) : List ℚ :=
  (visitedF u.length).foldl (GSvisitF mkFun b M A freeNode) u

/-- `FiniteElemNL::GSsolveb` (source lines 201–220), the descending pass
of the backward relaxation sweep (see the header note: the C++ loop guard
`i>=0` never fails, so the function as written has no normal return; this
embeds the body of the meaningful first `Nu-1` iterations). -/
def GSsolveb (mkFun : ℚ → ℚ → ℚ → Fun1D) (b u : List ℚ) (maxitr : Nat)
    (M : List ℚ) (A : Nat → Nat → ℚ) (tol : ℚ) (freeNode : List Nat) : List ℚ :=
  (visitedB u.length).foldl (GSvisitB mkFun b M A freeNode) u

/-- The number of values of the unsigned 64-bit `arma::uword` type. -/
def uwordSize : Nat := 2 ^ 64

/-- The decrement `i--` on a `uword`: subtraction by one modulo `2^64`
(wraps from `0` to `2^64 - 1`). -/
def uwordDec (i : Nat) : Nat := (i + (uwordSize - 1)) % uwordSize

/-- The guard `i>=0` of the backward sweep's loop header
`for(uword i=Nu-2;i>=0;i--)` (source line 204), as a test on the `uword`
value `i`. -/
def GSsolvebGuard (i : Nat) : Bool := decide (0 ≤ i)

/-- The initial value `Nu-2` of the backward sweep's loop counter,
computed in `uword` arithmetic (for `Nu < 2` it wraps). -/
def GSsolvebInitIdx (Nu : Nat) : Nat := (Nu + (uwordSize - 2)) % uwordSize

/-- Loop of `FiniteElemNL::NWTsolve` (source lines 162–174), the global
Newton alternative: `B = A + diagmat(M%Df)`, a direct solve of the
free-node submatrix of `B` against the free-node residual (the external
Armadillo `solve` is the parameter `lsolve`), the update
`u.rows(freeNode) -= e`, and recomputation of the residual from the fresh
`fu`. -/
def NWTgoGlobal (lsolve : (Nat → Nat → ℚ) → List ℚ → List ℚ) (F DF : ℚ → ℚ)
    (b M : List ℚ) (A : Nat → Nat → ℚ) (freeNode : List Nat) (tolSq : ℚ) :
    Nat → List ℚ → ℚ → List ℚ
  | 0, u, _ => u
  | fuel + 1, u, errSq =>
    if tolSq < errSq then
      let Df := hadamard M (u.map DF)
      let B := fun i j => A i j + (if i = j then Df.getD i 0 else 0)
      let r := selRows (residualVec A M b (u.map F) u) freeNode
      let e := lsolve (fun p q => B (freeNode.getD p 0) (freeNode.getD q 0)) r
      let u2 := setRows u freeNode (subVec (selRows u freeNode) e)
      NWTgoGlobal lsolve F DF b M A freeNode tolSq fuel u2
        (normSq (selRows (residualVec A M b (u2.map F) u2) freeNode))
    else u

/-- `FiniteElemNL::NWTsolve` (source lines 151–177). -/
def NWTsolve (lsolve : (Nat → Nat → ℚ) → List ℚ → List ℚ) (F DF : ℚ → ℚ)
    (b u : List ℚ) (maxitr : Nat) (M : List ℚ) (A : Nat → Nat → ℚ)
    (tol : ℚ) (freeNode : List Nat) : List ℚ :=
  let r := selRows (residualVec A M b (u.map F) u) freeNode
  let tolSq := tol * tol * normSq r
  NWTgoGlobal lsolve F DF b M A freeNode tolSq maxitr u (4 * tolSq)

/-- The residual that the driver loop compares against the scaled
tolerance (source lines 74–76): `((A*u)+(Mv%fu0)-b).rows(freeNode)`,
where `fu0` is the vector `fu` the constructor computed once at line 64
and never recomputes inside the loop. -/
def driverComparedRes (A : Nat → Nat → ℚ) (Mv b fu0 : List ℚ)
    (freeNode : List Nat) (u : List ℚ) : List ℚ :=
  selRows (residualVec A Mv b fu0 u) freeNode

/-- The driver loop of the running constructor (source lines 71–80): up to
`10` outer iterations of one forward then one backward sweep, then the
residual recomputation with the frozen `fu0` and the comparison of its
free-node norm against the scaled tolerance (squared comparisons, see the
header note). -/
def driverGo (mkFun : ℚ → ℚ → ℚ → Fun1D) (b Mv : List ℚ) (A : Nat → Nat → ℚ)
    (freeNode : List Nat) (fu0 : List ℚ) (tolSq : ℚ) :
    Nat → List ℚ → ℚ → List ℚ
  | 0, u, _ => u
  | fuel + 1, u, errSq =>
    if tolSq < errSq then
      let u2 := GSsolveb mkFun b
        (GSsolve mkFun b u 10 Mv A (1 / 1000000) freeNode) 10 Mv A (1 / 1000000) freeNode
      driverGo mkFun b Mv A freeNode fu0 tolSq fuel u2
        (normSq (driverComparedRes A Mv b fu0 freeNode u2))
    else u

/-- The running constructor `FiniteElemNL::FiniteElemNL(vector<double>,
string)` (source lines 39–87) from the mesh fields onward: zero-initialize
`u`, assemble `b = calcRHS()` with the installed `FunZeros` source plugin,
write the boundary evaluations into `u.rows(bdNode)`, compute the initial
residual with the elementwise nonlinear plugin `pdenl`, scale the
tolerance `1e-6` by its free-node norm, and run the driver loop.  The
mesh generation (`MeshMG`) is an external collaborator; its produced
fields are the arguments. -/
def FiniteElemNLrun (pdenl : ℚ → ℚ) (bdfun : ℚ × ℚ → ℚ)
    (mkFun : ℚ → ℚ → ℚ → Fun1D) (node : List (ℚ × ℚ))
    (elem : List (Nat × Nat × Nat)) (area : List ℚ)
    (stiffness mass : Nat → Nat → ℚ) (freeNode bdNode : List Nat) : List ℚ :=
  let N := node.length
  let u0 := List.replicate N (0 : ℚ)
  let b := calcRHS FunZeros node elem area
  let u1 := setRows u0 bdNode (bdNode.map (fun j => bdfun (node.getD j (0, 0))))
  let Mv := (List.range N).map (fun i => mass i i)
  let fu := u1.map pdenl
  let r := selRows (residualVec stiffness Mv b fu u1) freeNode
  let tolSq := (1 / 1000000) * (1 / 1000000) * normSq r
  driverGo mkFun b Mv stiffness freeNode fu tolSq 10 u1 (4 * tolSq)

/-- The precondition that the free-node and boundary-node index lists
partition the `N` node indices: all in range, jointly exhaustive,
disjoint. -/
def meshPartition (N : Nat) (freeNode bdNode : List Nat) : Prop :=
  (∀ j ∈ freeNode, j < N) ∧ (∀ j ∈ bdNode, j < N) ∧
    (∀ j < N, j ∈ freeNode ∨ j ∈ bdNode) ∧ (∀ j ∈ freeNode, j ∉ bdNode)

/-- The six function-evaluator classes whose headers the source includes
(source lines 14–19). -/
inductive PdeName where
  | funZeros | funOnes | funSC | funSCNL | funSCbD | funBoltz
deriving DecidableEq

/-- The three plugin slots the constructor fills. -/
structure ChosenFuns where
  pde : PdeName
  bdfun : PdeName
  pdenl : PdeName
deriving DecidableEq

/-- The constructor's plugin selection (source lines 43–46): regardless of
the `fun` string argument, it installs `pde = new FunZeros`,
`bdfun = new FunBoltz`, `pdenl = new FunSCNL`.  The string is never
consulted and there is no failure path. -/
def selectEvaluators (funName : String) : ChosenFuns :=
  ⟨PdeName.funZeros, PdeName.funBoltz, PdeName.funSCNL⟩

/-! ### Step lemmas for the fuel-recursive loops (used to evaluate runs
and to reason about the loops one iteration at a time). -/

theorem NWTgo_zero (f : Fun1D) (tol x fp df : ℚ) : NWTgo f tol 0 x fp df = x := rfl

theorem NWTgo_true (f : Fun1D) (tol : ℚ) (n : Nat) (x fp df : ℚ)
    (h : tol < ratAbs fp) :
    NWTgo f tol (n + 1) x fp df =
      NWTgo f tol n (x - fp / df) (f.F (x - fp / df)) (f.DF (x - fp / df)) := by
  simp [NWTgo, h]

theorem NWTgo_false (f : Fun1D) (tol : ℚ) (n : Nat) (x fp df : ℚ)
    (h : ¬ tol < ratAbs fp) :
    NWTgo f tol (n + 1) x fp df = x := by
  simp [NWTgo, h]

theorem NWTgoDivZero_zero (f : Fun1D) (tol x fp df : ℚ) :
    NWTgoDivZero f tol 0 x fp df = false := rfl

theorem NWTgoDivZero_hit (f : Fun1D) (tol : ℚ) (n : Nat) (x fp df : ℚ)
    (h : tol < ratAbs fp) (hdf : df = 0) :
    NWTgoDivZero f tol (n + 1) x fp df = true := by
  simp [NWTgoDivZero, h, hdf]

theorem NWTgoDivZero_step (f : Fun1D) (tol : ℚ) (n : Nat) (x fp df : ℚ)
    (h : tol < ratAbs fp) (hdf : ¬ df = 0) :
    NWTgoDivZero f tol (n + 1) x fp df =
      NWTgoDivZero f tol n (x - fp / df) (f.F (x - fp / df)) (f.DF (x - fp / df)) := by
  simp [NWTgoDivZero, h, hdf]

theorem NWTgoDivZero_false (f : Fun1D) (tol : ℚ) (n : Nat) (x fp df : ℚ)
    (h : ¬ tol < ratAbs fp) :
    NWTgoDivZero f tol (n + 1) x fp df = false := by
  simp [NWTgoDivZero, h]

theorem driverGo_zero (mkFun : ℚ → ℚ → ℚ → Fun1D) (b Mv : List ℚ)
    (A : Nat → Nat → ℚ) (freeNode : List Nat) (fu0 : List ℚ) (tolSq : ℚ)
    (u : List ℚ) (errSq : ℚ) :
    driverGo mkFun b Mv A freeNode fu0 tolSq 0 u errSq = u := rfl

theorem driverGo_true (mkFun : ℚ → ℚ → ℚ → Fun1D) (b Mv : List ℚ)
    (A : Nat → Nat → ℚ) (freeNode : List Nat) (fu0 : List ℚ) (tolSq : ℚ)
    (fuel : Nat) (u : List ℚ) (errSq : ℚ) (h : tolSq < errSq) :
    driverGo mkFun b Mv A freeNode fu0 tolSq (fuel + 1) u errSq =
      driverGo mkFun b Mv A freeNode fu0 tolSq fuel
        (GSsolveb mkFun b
          (GSsolve mkFun b u 10 Mv A (1 / 1000000) freeNode) 10 Mv A (1 / 1000000) freeNode)
        (normSq (driverComparedRes A Mv b fu0 freeNode
          (GSsolveb mkFun b
            (GSsolve mkFun b u 10 Mv A (1 / 1000000) freeNode) 10 Mv A (1 / 1000000) freeNode))) := by
  simp [driverGo, h]

theorem driverGo_false (mkFun : ℚ → ℚ → ℚ → Fun1D) (b Mv : List ℚ)
    (A : Nat → Nat → ℚ) (freeNode : List Nat) (fu0 : List ℚ) (tolSq : ℚ)
    (fuel : Nat) (u : List ℚ) (errSq : ℚ) (h : ¬ tolSq < errSq) :
    driverGo mkFun b Mv A freeNode fu0 tolSq (fuel + 1) u errSq = u := by
  simp [driverGo, h]

/-! ### Generic helper lemmas -/

theorem getD_set_ne (l : List ℚ) (i j : Nat) (x : ℚ) (h : i ≠ j) :
    (l.set i x).getD j 0 = l.getD j 0 := by
  simp [List.getD_eq_getElem?_getD, List.getElem?_set_ne h]

theorem getD_set_self (l : List ℚ) (i : Nat) (x : ℚ) (h : i < l.length) :
    (l.set i x).getD i 0 = x := by
  simp [List.getD_eq_getElem?_getD, List.getElem?_set_self', List.getElem?_eq_getElem h]

/-- A visit of the forward sweep leaves every index other than a visited
free index unchanged. -/
theorem GSvisitF_getD_nonfree (mkFun : ℚ → ℚ → ℚ → Fun1D) (b M : List ℚ)
    (A : Nat → Nat → ℚ) (freeNode : List Nat) (u : List ℚ) (i j : Nat)
    (hj : j ∉ freeNode) :
    (GSvisitF mkFun b M A freeNode u i).getD j 0 = u.getD j 0 := by
  unfold GSvisitF
  by_cases hi : i ∈ freeNode
  · have hij : i ≠ j := fun h => hj (h ▸ hi)
    rw [if_pos hi]
    exact getD_set_ne _ _ _ _ hij
  · rw [if_neg hi]

theorem GSvisitB_getD_nonfree (mkFun : ℚ → ℚ → ℚ → Fun1D) (b M : List ℚ)
    (A : Nat → Nat → ℚ) (freeNode : List Nat) (u : List ℚ) (i j : Nat)
    (hj : j ∉ freeNode) :
    (GSvisitB mkFun b M A freeNode u i).getD j 0 = u.getD j 0 := by
  unfold GSvisitB
  by_cases hi : i ∈ freeNode
  · have hij : i ≠ j := fun h => hj (h ▸ hi)
    rw [if_pos hi]
    exact getD_set_ne _ _ _ _ hij
  · rw [if_neg hi]

theorem foldl_GSvisitF_getD_nonfree (mkFun : ℚ → ℚ → ℚ → Fun1D) (b M : List ℚ)
    (A : Nat → Nat → ℚ) (freeNode : List Nat) (j : Nat) (hj : j ∉ freeNode) :
    ∀ (L : List Nat) (u : List ℚ),
      (L.foldl (GSvisitF mkFun b M A freeNode) u).getD j 0 = u.getD j 0 := by
  intro L
  induction L with
  | nil => intro u; rfl
  | cons i L ih =>
    intro u
    rw [List.foldl_cons, ih, GSvisitF_getD_nonfree _ _ _ _ _ _ _ _ hj]

theorem foldl_GSvisitB_getD_nonfree (mkFun : ℚ → ℚ → ℚ → Fun1D) (b M : List ℚ)
    (A : Nat → Nat → ℚ) (freeNode : List Nat) (j : Nat) (hj : j ∉ freeNode) :
    ∀ (L : List Nat) (u : List ℚ),
      (L.foldl (GSvisitB mkFun b M A freeNode) u).getD j 0 = u.getD j 0 := by
  intro L
  induction L with
  | nil => intro u; rfl
  | cons i L ih =>
    intro u
    rw [List.foldl_cons, ih, GSvisitB_getD_nonfree _ _ _ _ _ _ _ _ hj]

theorem GSsolve_getD_nonfree (mkFun : ℚ → ℚ → ℚ → Fun1D) (b u : List ℚ)
    (maxitr : Nat) (M : List ℚ) (A : Nat → Nat → ℚ) (tol : ℚ)
    (freeNode : List Nat) (j : Nat) (hj : j ∉ freeNode) :
    (GSsolve mkFun b u maxitr M A tol freeNode).getD j 0 = u.getD j 0 :=
  foldl_GSvisitF_getD_nonfree mkFun b M A freeNode j hj _ u

theorem GSsolveb_getD_nonfree (mkFun : ℚ → ℚ → ℚ → Fun1D) (b u : List ℚ)
    (maxitr : Nat) (M : List ℚ) (A : Nat → Nat → ℚ) (tol : ℚ)
    (freeNode : List Nat) (j : Nat) (hj : j ∉ freeNode) :
    (GSsolveb mkFun b u maxitr M A tol freeNode).getD j 0 = u.getD j 0 :=
  foldl_GSvisitB_getD_nonfree mkFun b M A freeNode j hj _ u

theorem setRows_getD_not_mem (idx : List Nat) (j : Nat) (hj : j ∉ idx) :
    ∀ (u : List ℚ) (vals : List ℚ), (setRows u idx vals).getD j 0 = u.getD j 0 := by
  induction idx with
  | nil => intro u vals; rfl
  | cons i idx ih =>
    intro u vals
    match vals with
    | [] => rfl
    | v :: vals =>
      have hij : i ≠ j := fun h => hj (h ▸ List.mem_cons_self i idx)
      have hj2 : j ∉ idx := fun h => hj (List.mem_cons_of_mem i h)
      simp only [setRows, List.zip_cons_cons, List.foldl_cons]
      rw [show ((idx.zip vals).foldl (fun acc p => acc.set p.1 p.2) (u.set i v)) =
        setRows (u.set i v) idx vals from rfl, ih hj2, getD_set_ne _ _ _ _ hij]

theorem setRows_getD_mem_map (g : Nat → ℚ) (idx : List Nat) (j : Nat) :
    ∀ (u : List ℚ), j ∈ idx → j < u.length →
      (setRows u idx (idx.map g)).getD j 0 = g j := by
  induction idx with
  | nil => intro u hj; exact absurd hj (List.not_mem_nil j)
  | cons i idx ih =>
    intro u hj hlen
    simp only [setRows, List.map_cons, List.zip_cons_cons, List.foldl_cons]
    rw [show ((idx.zip (idx.map g)).foldl (fun acc p => acc.set p.1 p.2) (u.set i (g i))) =
      setRows (u.set i (g i)) idx (idx.map g) from rfl]
    by_cases hmem : j ∈ idx
    · exact ih (u.set i (g i)) hmem (by simpa using hlen)
    · have hij : i = j := by
        rcases List.mem_cons.mp hj with h | h
        · exact h.symm
        · exact absurd h hmem
      rw [setRows_getD_not_mem idx j hmem, hij, getD_set_self _ _ _ (hij ▸ hlen)]

theorem NWTgoGlobal_getD_nonfree (lsolve : (Nat → Nat → ℚ) → List ℚ → List ℚ)
    (F DF : ℚ → ℚ) (b M : List ℚ) (A : Nat → Nat → ℚ) (freeNode : List Nat)
    (tolSq : ℚ) (j : Nat) (hj : j ∉ freeNode) :
    ∀ (fuel : Nat) (u : List ℚ) (errSq : ℚ),
      (NWTgoGlobal lsolve F DF b M A freeNode tolSq fuel u errSq).getD j 0 = u.getD j 0 := by
  intro fuel
  induction fuel with
  | zero => intro u errSq; rfl
  | succ fuel ih =>
    intro u errSq
    by_cases h : tolSq < errSq
    · simp only [NWTgoGlobal, if_pos h]
      rw [ih, setRows_getD_not_mem _ _ hj]
    · simp only [NWTgoGlobal, if_neg h]

theorem NWTsolve_getD_nonfree (lsolve : (Nat → Nat → ℚ) → List ℚ → List ℚ)
    (F DF : ℚ → ℚ) (b u : List ℚ) (maxitr : Nat) (M : List ℚ)
    (A : Nat → Nat → ℚ) (tol : ℚ) (freeNode : List Nat) (j : Nat)
    (hj : j ∉ freeNode) :
    (NWTsolve lsolve F DF b u maxitr M A tol freeNode).getD j 0 = u.getD j 0 := by
  unfold NWTsolve
  exact NWTgoGlobal_getD_nonfree lsolve F DF b M A freeNode _ j hj maxitr u _

theorem driverGo_getD_nonfree (mkFun : ℚ → ℚ → ℚ → Fun1D) (b Mv : List ℚ)
    (A : Nat → Nat → ℚ) (freeNode : List Nat) (fu0 : List ℚ) (tolSq : ℚ)
    (j : Nat) (hj : j ∉ freeNode) :
    ∀ (fuel : Nat) (u : List ℚ) (errSq : ℚ),
      (driverGo mkFun b Mv A freeNode fu0 tolSq fuel u errSq).getD j 0 = u.getD j 0 := by
  intro fuel
  induction fuel with
  | zero => intro u errSq; rfl
  | succ fuel ih =>
    intro u errSq
    by_cases h : tolSq < errSq
    · rw [driverGo_true _ _ _ _ _ _ _ _ _ _ h, ih,
        GSsolveb_getD_nonfree _ _ _ _ _ _ _ _ _ hj,
        GSsolve_getD_nonfree _ _ _ _ _ _ _ _ _ hj]
    · rw [driverGo_false _ _ _ _ _ _ _ _ _ _ h]

theorem GSsolvebGuard_true (i : Nat) : GSsolvebGuard i = true := by
  simp [GSsolvebGuard]

theorem uwordSize_pos : 0 < uwordSize := by norm_num [uwordSize]

theorem uwordDec_iterate (k : Nat) : ∀ i : Nat, i < uwordSize →
    uwordDec^[k] i = (i + k * (uwordSize - 1)) % uwordSize := by
  induction k with
  | zero => intro i hi; simp [Nat.mod_eq_of_lt hi]
  | succ k ih =>
    intro i hi
    rw [Function.iterate_succ_apply]
    have h1 : uwordDec i < uwordSize := Nat.mod_lt _ uwordSize_pos
    rw [ih _ h1]
    unfold uwordDec
    rw [Nat.mod_add_mod]
    congr 1
    ring

theorem uwordDec_cycle (i : Nat) (hi : i < uwordSize) : uwordDec^[uwordSize] i = i := by
  rw [uwordDec_iterate _ _ hi, Nat.add_mul_mod_self_left, Nat.mod_eq_of_lt hi]

/-! ### The claims -/

/-- C1: the claim says every solver operation terminates, and in
particular that the backward sweep `GSsolveb` performs a traversal bounded
by the node range and returns.  On the code this fails: the loop header
`for(uword i=Nu-2;i>=0;i--)` tests `i>=0` on the unsigned `uword` type,
so the guard holds for every value the counter can take — after visiting
`Nu-2, …, 0` the counter wraps around to `2^64−1` and the loop can never
exit through its condition; iterating the `uword` decrement `2^64` times
returns the counter to its starting value, so the traversal cycles
unboundedly instead of stopping at the node range. -/
theorem GSsolveb_loop_never_exits :
    (∀ Nu k : Nat, GSsolvebGuard (uwordDec^[k] (GSsolvebInitIdx Nu)) = true) ∧
    (∀ Nu : Nat, uwordDec^[uwordSize] (GSsolvebInitIdx Nu) = GSsolvebInitIdx Nu) :=
  ⟨fun _ _ => GSsolvebGuard_true _,
   fun Nu => uwordDec_cycle _ (Nat.mod_lt _ uwordSize_pos)⟩

/-- C4: boundary invariant.  Under the precondition that the free-node
and boundary-node index lists partition the `N` node indices, for every
boundary index `j`: no forward sweep, backward sweep, global Newton
correction, or outer driver iteration changes `u` at `j` (the 1-D Newton
solver returns a scalar and writes only visited free indices, covered by
the sweep conjuncts), and the full constructor run leaves `u` at `j` equal
to the boundary-function evaluation `bdfun(node(j))` set at
initialization. -/
theorem boundary_invariant
    (pdenl : ℚ → ℚ) (bdfun : ℚ × ℚ → ℚ) (mkFun : ℚ → ℚ → ℚ → Fun1D)
    (lsolve : (Nat → Nat → ℚ) → List ℚ → List ℚ) (F DF : ℚ → ℚ)
    (node : List (ℚ × ℚ)) (elem : List (Nat × Nat × Nat)) (area : List ℚ)
    (stiffness mass : Nat → Nat → ℚ) (freeNode bdNode : List Nat) (j : Nat)
    (hpart : meshPartition node.length freeNode bdNode) (hj : j ∈ bdNode) :
    (∀ (b u : List ℚ) (maxitr : Nat) (M : List ℚ) (A : Nat → Nat → ℚ) (tol : ℚ),
      (GSsolve mkFun b u maxitr M A tol freeNode).getD j 0 = u.getD j 0) ∧
    (∀ (b u : List ℚ) (maxitr : Nat) (M : List ℚ) (A : Nat → Nat → ℚ) (tol : ℚ),
      (NWTsolve lsolve F DF b u maxitr M A tol freeNode).getD j 0 = u.getD j 0) ∧
    (∀ (b u : List ℚ) (maxitr : Nat) (M : List ℚ) (A : Nat → Nat → ℚ) (tol : ℚ),
      (GSsolveb mkFun b u maxitr M A tol freeNode).getD j 0 = u.getD j 0) ∧
    (∀ (b2 Mv2 : List ℚ) (A2 : Nat → Nat → ℚ) (fu2 : List ℚ) (tolSq2 : ℚ)
      (fuel : Nat) (u2 : List ℚ) (errSq2 : ℚ),
      (driverGo mkFun b2 Mv2 A2 freeNode fu2 tolSq2 fuel u2 errSq2).getD j 0 = u2.getD j 0) ∧
    (FiniteElemNLrun pdenl bdfun mkFun node elem area stiffness mass freeNode bdNode).getD j 0
      = bdfun (node.getD j (0, 0)) := by
  obtain ⟨hfree, hbd, hcov, hdisj⟩ := hpart
  have hjn : j ∉ freeNode := fun h => hdisj j h hj
  have hjlt : j < node.length := hbd j hj
  refine ⟨fun b u maxitr M A tol => GSsolve_getD_nonfree _ _ _ _ _ _ _ _ _ hjn,
    fun b u maxitr M A tol => NWTsolve_getD_nonfree _ _ _ _ _ _ _ _ _ _ _ hjn,
    fun b u maxitr M A tol => GSsolveb_getD_nonfree _ _ _ _ _ _ _ _ _ hjn,
    fun b2 Mv2 A2 fu2 tolSq2 fuel u2 errSq2 =>
      driverGo_getD_nonfree _ _ _ _ _ _ _ _ hjn _ _ _, ?_⟩
  simp only [FiniteElemNLrun]
  rw [driverGo_getD_nonfree _ _ _ _ _ _ _ _ hjn,
    setRows_getD_mem_map (fun j => bdfun (node.getD j (0, 0))) bdNode j _ hj
      (by simpa using hjlt)]

/-- C4 witness: the boundary invariant applied to a concrete 3-node mesh
with boundary nodes `0` and `2`, free node `1`, and boundary function
constantly `3`: after the whole run, `u(0) = 3`. -/
theorem boundary_invariant_witness :
    (FiniteElemNLrun (fun x => x * x) (fun _ => 3) (fun _ _ _ => ⟨fun _ => 0, fun _ => 1⟩)
      [(0, 0), (1, 0), (2, 0)] [] [] (fun _ _ => 0) (fun _ _ => 0) [1] [0, 2]).getD 0 0 = 3 :=
  (boundary_invariant (fun x => x * x) (fun _ => 3) (fun _ _ _ => ⟨fun _ => 0, fun _ => 1⟩)
    (fun _ r => r) (fun x => x) (fun _ => 1)
    [(0, 0), (1, 0), (2, 0)] [] [] (fun _ _ => 0) (fun _ _ => 0) [1] [0, 2] 0
    ⟨by decide, by decide, by decide, by decide⟩ (by decide)).2.2.2.2

/-- C8: the claim says a 1-D Newton step that meets a zero (or near-zero)
derivative fails with a DivergentDerivative condition instead of dividing.
On the code this fails: `NWTsolve1D` tests only `|f(x)| > tol` and the
iteration budget, divides `fp/df` unconditionally, and returns a plain
`double` with no error channel.  At the concrete input
`f(x) = x² − 2`, `f'(x) = 2x`, `x0 = 0`, `tol = 1e-6`, `maxitr = 10`, the
very first step divides the residual `−2` by the derivative `0`
(`NWTsolve1DhitsZeroDeriv` is `true`), and a plain value is returned (in
the exact-arithmetic embedding where `x/0 = 0` the returned iterate is
`0`; in the C++ `double` semantics the division produces `−∞`, which the
loop then propagates into the returned iterate and thence into `u`). -/
theorem NWTsolve1D_unguarded_zero_derivative :
    NWTsolve1DhitsZeroDeriv ⟨fun x => x * x - 2, fun x => 2 * x⟩ 0 (1 / 1000000) 10 = true ∧
    NWTsolve1D ⟨fun x => x * x - 2, fun x => 2 * x⟩ 0 (1 / 1000000) 10 = 0 := by
  constructor
  · norm_num [NWTsolve1DhitsZeroDeriv, NWTgoDivZero_hit, ratAbs]
  · norm_num [NWTsolve1D, NWTgo_zero, NWTgo_true, NWTgo_false, ratAbs, div_zero]

/-- C9: the claim says the construction entrypoint selects the function
evaluators by a name lookup on its selector string and fails with an
UnknownFunctionName condition on every unrecognized name.  On the code
this fails: lines 44–46 install `FunZeros`/`FunBoltz`/`FunSCNL`
unconditionally; the `fun` argument is never consulted (every two selector
strings produce the same evaluators) and the selection is total — there is
no failure path at all, contradicting the constructor's own documentation
("using the name provided in fun"). -/
theorem selectEvaluators_ignores_name :
    ∀ s t : String, selectEvaluators s = selectEvaluators t ∧
      selectEvaluators s = ⟨PdeName.funZeros, PdeName.funBoltz, PdeName.funSCNL⟩ :=
  fun _ _ => ⟨rfl, rfl⟩

/-- C10: for every input and any two values of the `maxitr` and `tol`
arguments, `GSsolve` returns the same vector, and likewise `GSsolveb`:
both sweeps ignore those two parameters (their bodies call `NWTsolve1D`
with the hardcoded literals `1e-6` and `10`, see `GSvisitF`/`GSvisitB`). -/
theorem sweeps_ignore_maxitr_tol (mkFun : ℚ → ℚ → ℚ → Fun1D) (b u M : List ℚ)
    (A : Nat → Nat → ℚ) (freeNode : List Nat) (maxitr maxitr2 : Nat)
    (tol tol2 : ℚ) :
    GSsolve mkFun b u maxitr M A tol freeNode = GSsolve mkFun b u maxitr2 M A tol2 freeNode ∧
    GSsolveb mkFun b u maxitr M A tol freeNode = GSsolveb mkFun b u maxitr2 M A tol2 freeNode :=
  ⟨rfl, rfl⟩

/-- C5: the claim says each sweep visits the full node range `[0, N)`
(skipping exactly the non-free indices), so that a free node at index `0`
or `N−1` is updated exactly once per sweep.  On the code this fails: the
forward loop runs `i = 1, …, N−2` and the backward pass runs
`i = N−2, …, 0`, so index `N−1` is never visited by either sweep and
index `0` is never visited by the forward sweep.  Concretely, with
`N = 3` and free-node set `{2}`, both sweeps return `u = [5, 6, 7]`
unchanged even though the embedded Newton update at any visited free node
would have changed the value (`NWTsolve1D` on the same plugin moves `7`
to `−3`). -/
theorem sweeps_skip_first_and_last :
    (∀ Nu : Nat, 0 ∉ visitedF Nu ∧ Nu - 1 ∉ visitedF Nu ∧ Nu - 1 ∉ visitedB Nu) ∧
    GSsolve (fun _ _ _ => ⟨fun _ => 1, fun _ => 1⟩) [0, 0, 0] [5, 6, 7] 10 [1, 1, 1]
      (fun _ _ => 1) (1 / 1000000) [2] = [5, 6, 7] ∧
    GSsolveb (fun _ _ _ => ⟨fun _ => 1, fun _ => 1⟩) [0, 0, 0] [5, 6, 7] 10 [1, 1, 1]
      (fun _ _ => 1) (1 / 1000000) [2] = [5, 6, 7] ∧
    NWTsolve1D ⟨fun _ => 1, fun _ => 1⟩ 7 (1 / 1000000) 10 = -3 := by
  refine ⟨fun Nu => ⟨?_, ?_, ?_⟩, ?_, ?_, ?_⟩
  · simp only [visitedF, List.mem_range'_1]
    omega
  · simp only [visitedF, List.mem_range'_1]
    omega
  · simp only [visitedB, List.mem_reverse, List.mem_range]
    omega
  · norm_num [GSsolve, GSvisitF, show visitedF 3 = [1] from rfl]
  · norm_num [GSsolveb, GSvisitB, show visitedB 3 = [1, 0] from rfl]
  · norm_num [NWTsolve1D, NWTgo_zero, NWTgo_true, NWTgo_false, ratAbs]

/-- C3 counterexample: the claim says the off-diagonal contribution
equals `Σ_{j≠i} A(i,j)·u(j)` in both traversal directions.  For the
backward sweep this is false: at `A ≡ 1`, `u = [1,1,1]`, `i = 1`,
`Nu = 3` the backward accumulation is `3` (it includes the diagonal term
`A(1,1)·u(1)`), while `Σ_{j≠1} A(1,j)·u(j) = 2`. -/
theorem GSsolveb_offdiag_includes_diagonal_cex :
    offdiagB (fun _ _ => (1 : ℚ)) [1, 1, 1] 1 3 ≠
      offdiagSpec (fun _ _ => (1 : ℚ)) [1, 1, 1] 1 3 := by
  norm_num [offdiagB, offdiagSpec,
    show List.range 1 = [0] from rfl,
    show List.range' 1 2 = [1, 2] from rfl,
    show (List.range 3).filter (fun j => j != 1) = [0, 2] from rfl]

theorem range_split (i Nu : Nat) (h : i ≤ Nu) :
    List.range Nu = List.range' 0 i ++ List.range' i (Nu - i) := by
  rw [List.range_eq_range', show Nu = Nu - i + i from by omega]
  have := List.range'_append 0 i (Nu - i) 1
  simpa using this.symm

/-- C3 amended: for every visited free index `i < Nu`, the forward sweep's
accumulation `offdiagF` equals `Σ_{j≠i} A(i,j)·u(j)` as the claim states,
but the backward sweep's accumulation `offdiagB` (whose second column span
starts at the diagonal index `i` instead of `i+1`) equals
`Σ_{j≠i} A(i,j)·u(j) + A(i,i)·u(i)`. -/
theorem GS_offdiag_amended (A : Nat → Nat → ℚ) (u : List ℚ) (i Nu : Nat)
    (hi : i < Nu) :
    offdiagF A u i Nu = offdiagSpec A u i Nu ∧
    offdiagB A u i Nu = offdiagSpec A u i Nu + A i i * u.getD i 0 := by
  have hsplit : List.range Nu = List.range' 0 i ++ List.range' i (Nu - i) :=
    range_split i Nu hi.le
  have hcons : List.range' i (Nu - i) = i :: List.range' (i + 1) (Nu - (i + 1)) := by
    rw [show Nu - i = (Nu - (i + 1)) + 1 from by omega]
    simpa using List.range'_succ i (Nu - (i + 1)) 1
  have hf1 : (List.range' 0 i).filter (fun j => j != i) = List.range' 0 i := by
    apply List.filter_eq_self.mpr
    intro a ha
    have := List.mem_range'_1.mp ha
    exact bne_iff_ne.mpr (by omega)
  have hf2 : (List.range' (i + 1) (Nu - (i + 1))).filter (fun j => j != i) =
      List.range' (i + 1) (Nu - (i + 1)) := by
    apply List.filter_eq_self.mpr
    intro a ha
    have := List.mem_range'_1.mp ha
    exact bne_iff_ne.mpr (by omega)
  have hspec : offdiagSpec A u i Nu =
      ((List.range' 0 i).map (fun j => A i j * u.getD j 0)).sum +
        ((List.range' (i + 1) (Nu - (i + 1))).map (fun j => A i j * u.getD j 0)).sum := by
    unfold offdiagSpec
    rw [hsplit, List.filter_append, hcons, List.filter_cons]
    simp only [bne_self_eq_false, Bool.false_eq_true, if_false]
    rw [hf1, hf2, List.map_append, List.sum_append]
  constructor
  · unfold offdiagF
    rw [hspec, List.range_eq_range']
  · unfold offdiagB
    rw [hspec, hcons, List.range_eq_range', List.map_cons, List.sum_cons]
    ring

/-- C3 amended witness: the amended off-diagonal description at the
concrete input of the counterexample. -/
theorem GS_offdiag_amended_witness :
    offdiagF (fun _ _ => (1 : ℚ)) [1, 1, 1] 1 3 =
        offdiagSpec (fun _ _ => (1 : ℚ)) [1, 1, 1] 1 3 ∧
    offdiagB (fun _ _ => (1 : ℚ)) [1, 1, 1] 1 3 =
        offdiagSpec (fun _ _ => (1 : ℚ)) [1, 1, 1] 1 3 +
          (fun _ _ => (1 : ℚ)) 1 1 * ([1, 1, 1] : List ℚ).getD 1 0 :=
  GS_offdiag_amended (fun _ _ => (1 : ℚ)) [1, 1, 1] 1 3 (by decide)

theorem accumArray_getD_positions (subs : List Nat) (ar : List ℚ) (N i : Nat)
    (hi : i < N) :
    (accumArray subs ar N).getD i 0 =
      (((List.range subs.length).filter (fun k => subs.getD k 0 == i)).map
        (fun k => ar.getD k 0)).sum := by
  unfold accumArray
  rw [List.getD_eq_getElem?_getD, List.getElem?_map, List.getElem?_range hi]
  simp only [Option.map_some', Option.getD_some]
  by_cases h : ((List.range subs.length).filter (fun k => subs.getD k 0 == i)).isEmpty
  · rw [if_pos h]
    rw [List.isEmpty_iff] at h
    rw [h]
    rfl
  · rw [if_neg h]

theorem positions_sum_eq_zip_sum (i : Nat) :
    ∀ (subs : List Nat) (ar : List ℚ), subs.length = ar.length →
      (((List.range subs.length).filter (fun k => subs.getD k 0 == i)).map
        (fun k => ar.getD k 0)).sum =
      (((subs.zip ar).filter (fun p => p.1 == i)).map (fun p => p.2)).sum := by
  intro subs
  induction subs with
  | nil => intro ar h; simp
  | cons s st ih =>
    intro ar h
    match ar with
    | [] => simp at h
    | a :: ar2 =>
      have hlen : st.length = ar2.length := by simpa using h
      have hcomp1 : ((fun k => (s :: st).getD k 0 == i) ∘ Nat.succ) =
          (fun k => st.getD k 0 == i) := rfl
      have hcomp2 : ((fun k => (a :: ar2).getD k 0) ∘ Nat.succ) =
          (fun k => ar2.getD k 0) := rfl
      rw [show (s :: st).length = st.length + 1 from rfl, List.range_succ_eq_map,
        List.filter_cons, List.zip_cons_cons, List.filter_cons]
      rw [List.filter_map Nat.succ (List.range st.length), hcomp1]
      by_cases hs : s = i
      · have hb1 : ((s :: st).getD 0 0 == i) = true := by
          simpa using hs
        have hb2 : (((s, a) : Nat × ℚ).1 == i) = true := by simpa using hs
        rw [if_pos hb1, if_pos hb2, List.map_cons, List.sum_cons, List.map_cons,
          List.sum_cons, List.map_map, hcomp2, ih ar2 hlen]
        rfl
      · have hb1 : ¬ ((s :: st).getD 0 0 == i) = true := by simpa using hs
        have hb2 : ¬ (((s, a) : Nat × ℚ).1 == i) = true := by simpa using hs
        rw [if_neg hb1, if_neg hb2, List.map_map, hcomp2, ih ar2 hlen]

/-- C6: `accumArray` is the sum-by-key reduction the spec describes: for a
key list and a parallel value list of the same length, the result has
length `N`, its entry at every `i < N` is the sum of the values whose key
equals `i` (`0` when there is none, duplicates accumulating additively);
the concrete instance keys `[0,2,2,1]`, values `[1,2,3,4]`, `N = 4` yields
`[1,4,5,0]`; and an empty key list yields the all-zero vector of the
requested length. -/
theorem accumArray_spec (subs : List Nat) (ar : List ℚ) (N i : Nat)
    (hlen : subs.length = ar.length) (hi : i < N) :
    (accumArray subs ar N).length = N ∧
    (accumArray subs ar N).getD i 0 =
      (((subs.zip ar).filter (fun p => p.1 == i)).map (fun p => p.2)).sum ∧
    accumArray [0, 2, 2, 1] [1, 2, 3, 4] 4 = [1, 4, 5, 0] ∧
    (∀ m : Nat, accumArray [] [] m = List.replicate m 0) := by
  refine ⟨by simp [accumArray], ?_, ?_, ?_⟩
  · rw [accumArray_getD_positions subs ar N i hi, positions_sum_eq_zip_sum i subs ar hlen]
  · norm_num [accumArray, show List.range 4 = [0, 1, 2, 3] from rfl]
  · intro m
    unfold accumArray
    simp [List.map_const']

/-- C6 witness: the characterization applied at the concrete instance of
the claim, at entry `i = 2`. -/
theorem accumArray_spec_witness :
    (accumArray [0, 2, 2, 1] [1, 2, 3, 4] 4).getD 2 0 =
      ((([0, 2, 2, 1].zip ([1, 2, 3, 4] : List ℚ)).filter (fun p => p.1 == 2)).map
        (fun p => p.2)).sum ∧
    accumArray [0, 2, 2, 1] [1, 2, 3, 4] 4 = [1, 4, 5, 0] :=
  ⟨(accumArray_spec [0, 2, 2, 1] [1, 2, 3, 4] 4 2 (by decide) (by decide)).2.1,
   (accumArray_spec [0, 2, 2, 1] [1, 2, 3, 4] 4 2 (by decide) (by decide)).2.2.1⟩

theorem zipWith_map_same {α β γ δ : Type} (g : β → γ → δ) (φ : α → β) (ψ : α → γ) :
    ∀ l : List α, List.zipWith g (l.map φ) (l.map ψ) = l.map (fun x => g (φ x) (ψ x)) := by
  intro l
  induction l with
  | nil => rfl
  | cons x l ih => simp only [List.map_cons, List.zipWith_cons_cons, ih]

theorem zipWith_zip_map {α : Type} (g : ℚ → ℚ → ℚ) (γf : α → ℚ) :
    ∀ (l : List α) (area : List ℚ),
      List.zipWith g area (l.map γf) = (l.zip area).map (fun p => g p.2 (γf p.1)) := by
  intro l
  induction l with
  | nil => intro area; cases area <;> rfl
  | cons x l ih =>
    intro area
    cases area with
    | nil => rfl
    | cons a area =>
      simp only [List.map_cons, List.zipWith_cons_cons, List.zip_cons_cons, ih]

/-- C7: `calcRHS` computes exactly the load vector the spec describes —
per element, the three edge midpoints (each the average of the two
endpoints of the edge opposite one vertex), the per-vertex contribution
`area * (sum of the plugin values at the two edge-midpoints adjacent to
that vertex) / 6`, concatenation of the three per-vertex contribution
columns in vertex-column order, and a scatter-accumulate against the
identically ordered flattened connectivity table (`calcRHSspec`, written
from the spec's words).  Both are pure functions of their arguments; no
input is mutated in this embedding by construction. -/
theorem calcRHS_matches_spec (f : ℚ × ℚ → ℚ) (node : List (ℚ × ℚ))
    (elem : List (Nat × Nat × Nat)) (area : List ℚ) :
    calcRHS f node elem area = calcRHSspec f node elem area := by
  unfold calcRHS calcRHSspec
  simp only [rowsP, midRows, addVec, List.map_map, zipWith_map_same, zipWith_zip_map]
  rfl

/-- C2: the claim says that on every outer driver iteration the residual
compared against the scaled tolerance equals `A·u + M⊙f(u) − b` on free
nodes with `f` evaluated at the just-updated `u`.  On the code this fails:
the constructor computes `fu = pdenl->evalF(u)` once, before the loop
(line 64), and line 74 reuses that stale vector forever.  Concrete
instance (3 nodes, free node `1`, boundary value `1`, `A` with diagonal
`2` and off-diagonal `1`, `M = I`, `b = 0`, elementwise plugin
`f(x) = x²`, scalar plugin with root at `1`): the sweeps move
`u = [1,0,1]` to `[1,1,1]`; the residual the driver then compares —
`driverComparedRes` with the stale `fu = f([1,0,1])` — is `[4]`, while
`A·u + M⊙f(u) − b` on free nodes with `f` at the current `u = [1,1,1]`
is `[5]`; the full constructor run does execute this comparison (its
first-iteration guard holds) and returns `[1,1,1]`. -/
theorem driver_residual_uses_stale_fu :
    GSsolveb (fun _ _ _ => ⟨fun x => x - 1, fun _ => 1⟩) [0, 0, 0]
        (GSsolve (fun _ _ _ => ⟨fun x => x - 1, fun _ => 1⟩) [0, 0, 0] [1, 0, 1] 10 [1, 1, 1]
          (fun i j => if i = j then (2 : ℚ) else 1) (1 / 1000000) [1]) 10 [1, 1, 1]
        (fun i j => if i = j then (2 : ℚ) else 1) (1 / 1000000) [1] = [1, 1, 1] ∧
    driverComparedRes (fun i j => if i = j then (2 : ℚ) else 1) [1, 1, 1] [0, 0, 0]
        (List.map (fun x => x * x) [1, 0, 1]) [1] [1, 1, 1] = [4] ∧
    selRows (residualVec (fun i j => if i = j then (2 : ℚ) else 1) [1, 1, 1] [0, 0, 0]
        (List.map (fun x => x * x) [1, 1, 1]) [1, 1, 1]) [1] = [5] ∧
    FiniteElemNLrun (fun x => x * x) (fun _ => 1) (fun _ _ _ => ⟨fun x => x - 1, fun _ => 1⟩)
        [((0 : ℚ), (0 : ℚ)), (1, 0), (2, 0)] [] [] (fun i j => if i = j then (2 : ℚ) else 1)
        (fun i j => if i = j then (1 : ℚ) else 0) [1] [0, 2] = [1, 1, 1] := by
  refine ⟨?_, ?_, ?_, ?_⟩
  · norm_num [GSsolveb, GSvisitB, show visitedB 3 = [1, 0] from rfl, offdiagB,
      GSsolve, GSvisitF, show visitedF 3 = [1] from rfl, offdiagF,
      NWTsolve1D, NWTgo_zero, NWTgo_true, NWTgo_false, ratAbs,
      show List.range 1 = [0] from rfl, show List.range' 2 1 = [2] from rfl,
      show List.range' 1 2 = [1, 2] from rfl]
  · norm_num [driverComparedRes, selRows, residualVec, matVec, hadamard, addVec, subVec,
      show List.range 3 = [0, 1, 2] from rfl]
  · norm_num [selRows, residualVec, matVec, hadamard, addVec, subVec,
      show List.range 3 = [0, 1, 2] from rfl]
  · norm_num [FiniteElemNLrun, calcRHS, FunZeros, accumArray, rowsP, midRows, addVec, subVec,
      setRows, List.replicate, driverGo_zero, driverGo_true, driverGo_false,
      driverComparedRes, selRows, residualVec, matVec, hadamard, normSq,
      GSsolve, GSvisitF, offdiagF, GSsolveb, GSvisitB, offdiagB,
      NWTsolve1D, NWTgo_zero, NWTgo_true, NWTgo_false, ratAbs,
      show List.range 3 = [0, 1, 2] from rfl, show List.range 1 = [0] from rfl,
      show List.range' 2 1 = [2] from rfl, show List.range' 1 2 = [1, 2] from rfl,
      show visitedF 3 = [1] from rfl, show visitedB 3 = [1, 0] from rfl]

